import Mathlib

/-!
Verification of the local-AI translation pipeline: the browser-side
translator client (`browser-extension/src/background/translation.js`)
and the proxy service embedded in `setup.sh`.

Texts are modelled as `List Char` (one entry per UTF-16 code unit of the
JavaScript string; every character appearing in the claims lies in the
basic multilingual plane, where the two notions agree).  Fallible calls
to the model runtime are modelled by an explicit oracle of type
`List Char → Except (List Char) OllamaRaw` mapping the generated prompt
to either a transport error or a raw completion.
-/

/-- Convenience conversion from a Lean string literal to the `List Char`
representation used throughout the development. -/
def chars (s : String) : List Char := s.data

/-! ## Character classes of the JavaScript regexes -/
/-- Sentence terminators of the regex `[.!?。！？]` in `splitText`. -/
def isTerminator (c : Char) : Bool :=
  decide (c = '.' ∨ c = '!' ∨ c = '?' ∨ c = '。' ∨ c = '！' ∨ c = '？')

/-- White space as matched by the JavaScript `\s` class (also the set
removed by `String.prototype.trim`). -/
def isJsSpace (c : Char) : Bool :=
  let n := c.toNat
  decide ((9 ≤ n ∧ n ≤ 13) ∨ n = 32 ∨ n = 160 ∨ n = 5760 ∨
    (8192 ≤ n ∧ n ≤ 8202) ∨ n = 8232 ∨ n = 8233 ∨ n = 8239 ∨
    n = 8287 ∨ n = 12288 ∨ n = 65279)

/-- Digits, the JavaScript `\d` class. -/
def isDigitJs (c : Char) : Bool := decide ('0' ≤ c ∧ c ≤ '9')

/-- Word characters, the JavaScript `\w` class `[A-Za-z0-9_]`. -/
def isWordJs (c : Char) : Bool :=
  decide (('a' ≤ c ∧ c ≤ 'z') ∨ ('A' ≤ c ∧ c ≤ 'Z') ∨ ('0' ≤ c ∧ c ≤ '9') ∨ c = '_')

/-- CJK unified ideographs, the class `[一-鿿]` used by
`shouldTranslate` to detect Chinese characters. -/
def isCjk (c : Char) : Bool := decide (19968 ≤ c.toNat ∧ c.toNat ≤ 40959)

/-- Model of `String.prototype.trim`: remove JavaScript white space from
both ends. -/
def jsTrim (s : List Char) : List Char :=
  ((s.dropWhile isJsSpace).reverse.dropWhile isJsSpace).reverse

/-- Work loop of the sentence split.  The fuel argument only bounds the
recursion depth; `sentenceSplitGo_spec` below shows any fuel larger than
the remaining length gives the same (fuel-independent) answer. -/
def sentenceSplitGo : Nat → List Char → List (List Char)
  | 0, s => [s]
  | fuel + 1, s =>
    if s.dropWhile (fun c => !isTerminator c) = [] then [s]
    else
      let pre := s.takeWhile (fun c => !isTerminator c)
      let restAll := s.dropWhile (fun c => !isTerminator c)
      let term := restAll.takeWhile isTerminator
      let afterTerm := restAll.dropWhile isTerminator
      let ws := afterTerm.takeWhile isJsSpace
      let tail := afterTerm.dropWhile isJsSpace
      pre :: (term ++ ws) :: sentenceSplitGo fuel tail

/-- Model of `text.split(/([.!?。！？]+\s*)/)`. -/
def sentenceSplit (s : List Char) : List (List Char) :=
  sentenceSplitGo (s.length + 1) s

/-! ## The segmentation algorithm `splitText` -/
/-- One iteration of the accumulation loop in `splitText`
(`translation.js` lines 369–382): state is the pair
(emitted segments, current segment). -/
def splitStep (maxLength : Nat) (st : List (List Char) × List Char)
    (sentence : List Char) : List (List Char) × List Char :=
  if st.2.length + sentence.length ≤ maxLength then
    (st.1, st.2 ++ sentence)
  else if st.2.isEmpty then
    (st.1 ++ [sentence.take maxLength], sentence.drop maxLength)
  else
    (st.1 ++ [st.2], sentence)

/-- Model of `LocalAITranslator.splitText` (`translation.js` lines
360–389). -/
def splitText (text : List Char) (maxLength : Nat) : List (List Char) :=
  if text.length ≤ maxLength then [text]
  else
    let st := (sentenceSplit text).foldl (splitStep maxLength) ([], [])
    if st.2.isEmpty then st.1 else st.1 ++ [st.2]

/-! ## The eligibility filter `shouldTranslate` -/
/-- Model of the test `/^[\d\s\W]+$/.test(text)`: the text is nonempty
and every character is a digit, white space, or a non-word character. -/
def matchesSymbolOnly (text : List Char) : Bool :=
  !text.isEmpty && text.all (fun c => isDigitJs c || isJsSpace c || !isWordJs c)

/-- Model of the Chinese-ratio test `chineseRatio > 0.8`.  The source
computes `chineseChars.length / text.length` in floating point and
compares with the literal `0.8`; for the string lengths representable
here the comparison agrees with the exact rational test `5·c > 4·n`,
which is how it is stated. -/
def chineseRatioExceeds (text : List Char) : Bool :=
  decide (5 * (text.filter isCjk).length > 4 * text.length)

/-- Model of `LocalAITranslator.shouldTranslate` (`translation.js`
lines 296–307). -/
def shouldTranslate (text : List Char) : Bool :=
  if text.length < 3 then false
  else if matchesSymbolOnly text then false
  else if chineseRatioExceeds text then false
  else true

/-! ## The proxy service (`setup.sh`, embedded Node server)

The downstream model runtime (Ollama) is an external collaborator; it is
modelled as an oracle mapping the generated prompt to either a transport
error message or a raw completion with its timing metadata. -/
/-- Raw response of the Ollama `/api/generate` endpoint. -/
structure OllamaRaw where
  response : List Char
  total_duration : Nat
  load_duration : Nat
  prompt_eval_count : Nat
  eval_count : Nat
deriving DecidableEq, Repr

/-- Timing and usage metadata copied into a translation result. -/
structure TranslationStats where
  total_duration : Nat
  load_duration : Nat
  prompt_eval_count : Nat
  eval_count : Nat
deriving DecidableEq, Repr

/-- Successful result object built by `translateWithOllama` (its
`success` field is always `true`, so it is left implicit); these are the
values stored in the cache. -/
structure OllamaResult where
  translation : List Char
  modelName : List Char
  stats : TranslationStats
deriving DecidableEq, Repr

/-- The model runtime oracle: prompt in, error or raw completion out. -/
def Ollama : Type := List Char → Except (List Char) OllamaRaw

/-! ### Cache key derivation -/
/-- UTF-8 encoding of one character, as produced by `Buffer.from(text)`. -/
def utf8EncodeChar (c : Char) : List Nat :=
  let n := c.toNat
  if n < 128 then [n]
  else if n < 2048 then [192 + n / 64, 128 + n % 64]
  else if n < 65536 then [224 + n / 4096, 128 + (n / 64) % 64, 128 + n % 64]
  else [240 + n / 262144, 128 + (n / 4096) % 64, 128 + (n / 64) % 64, 128 + n % 64]

/-- UTF-8 encoding of a text. -/
def utf8Encode (s : List Char) : List Nat := (s.map utf8EncodeChar).flatten

/-- The standard base64 alphabet. -/
def base64Alphabet : List Char :=
  chars ("ABCDEFGHIJKLMNOPQRSTUVWXYZabcdefghijklmnopqrstuvwxyz0123456789+/")

/-- Character for a 6-bit group. -/
def base64Char (n : Nat) : Char := base64Alphabet.getD n 'A'

/-- Standard base64 with padding, as produced by
`Buffer.prototype.toString('base64')`. -/
def base64Encode : List Nat → List Char
  | [] => []
  | [b1] => [base64Char (b1 / 4), base64Char (b1 % 4 * 16), '=', '=']
  | [b1, b2] =>
    [base64Char (b1 / 4), base64Char (b1 % 4 * 16 + b2 / 16),
      base64Char (b2 % 16 * 4), '=']
  | b1 :: b2 :: b3 :: rest =>
    base64Char (b1 / 4) :: base64Char (b1 % 4 * 16 + b2 / 16) ::
      base64Char (b2 % 16 * 4 + b3 / 64) :: base64Char (b3 % 64) ::
      base64Encode rest

/-- Cache key of `/api/translate` (`setup.sh` line 513) and
`batchTranslate` (line 425): model, languages and the first 50 base64
characters of the text. -/
def cacheKey (model sourceLang targetLang text : List Char) : List Char :=
  model ++ chars ("_") ++ sourceLang ++ chars ("_") ++ targetLang ++ chars ("_") ++
    (base64Encode (utf8Encode text)).take 50

/-! ### Prompt construction -/
/-- Template for `zh-tw` in `getTranslationPrompt`. -/
def promptZhTw (text : List Char) : List Char :=
  chars ("你是一個專業的翻譯專家，請將以下文本翻譯成台灣繁體中文。\n\n翻譯要求：\n1. 使用台灣地區的用詞習慣和表達方式\n2. 保持原文的語氣、風格和格式\n3. 技術術語使用台灣慣用翻譯\n4. 確保翻譯自然流暢，符合中文語法\n5. 如果是專有名詞，保持原文或使用台灣通用譯名\n6. 保留原文中的HTML標籤、連結等格式\n\n原文：\n") ++
    text ++ chars ("\n\n請只返回翻譯結果，不要包含任何解釋或說明：")

/-- Template for `zh-cn` in `getTranslationPrompt`. -/
def promptZhCn (text : List Char) : List Char :=
  chars ("你是一個專業的翻譯專家，請將以下文本翻譯成簡體中文。\n\n翻譯要求：\n1. 使用大陸地區的用詞習慣和表達方式\n2. 保持原文的語氣、風格和格式\n3. 確保翻譯自然流暢，符合中文語法\n4. 保留原文中的HTML標籤、連結等格式\n\n原文：\n") ++
    text ++ chars ("\n\n請只返回翻譯結果，不要包含任何解釋或說明：")

/-- Template for `en` in `getTranslationPrompt`. -/
def promptEn (text : List Char) : List Char :=
  chars ("You are a professional translator. Please translate the following text to English.\n\nRequirements:\n1. Maintain the original tone, style, and format\n2. Use natural and fluent English\n3. Preserve HTML tags, links and other formatting in the original text\n\nOriginal text:\n") ++
    text ++ chars ("\n\nPlease return only the translation result without any explanation:")

/-- Model of `getTranslationPrompt` (`setup.sh` lines 319–363): static
per-target-language lookup with `zh-tw` as the fallback; the source
language is accepted but unused, as in the source. -/
def getTranslationPrompt (text sourceLang targetLang : List Char) : List Char :=
  if targetLang = chars ("zh-tw") then promptZhTw text
  else if targetLang = chars ("zh-cn") then promptZhCn text
  else if targetLang = chars ("en") then promptEn text
  else promptZhTw text

/-! ### Cleaning of the raw completion -/
/-- Strip one leading `label[：:]\s*` occurrence, the shape of the three
`replace(/^…[：:]\s*/i, '')` calls (the label texts are Chinese, so the
case-insensitivity flag has no effect). -/
def stripLabel (label : List Char) (s : List Char) : List Char :=
  if label.isPrefixOf s then
    match s.drop label.length with
    | c :: rest => if c = '：' ∨ c = ':' then rest.dropWhile isJsSpace else s
    | [] => s
  else s

/-- Cleaning applied to `response.data.response` (`setup.sh` lines
391–395): strip the labels `翻譯結果`, `譯文`, `翻譯` in this order,
then trim.  Note the labels are fixed Chinese strings and do not depend
on the requested target language. -/
def cleanTranslation (raw : List Char) : List Char :=
  jsTrim (stripLabel (chars ("翻譯")) (stripLabel (chars ("譯文"))
    (stripLabel (chars ("翻譯結果")) raw)))

/-- Model of `translateWithOllama` (`setup.sh` lines 366–415): build the
prompt, invoke the runtime, clean the completion.  A runtime error is
re-thrown with the `翻譯失敗: ` prefix. -/
def translateWithOllama (ollama : Ollama)
    (text sourceLang targetLang model : List Char) :
    Except (List Char) OllamaResult :=
  match ollama (getTranslationPrompt text sourceLang targetLang) with
  | Except.error e => Except.error (chars ("翻譯失敗: ") ++ e)
  | Except.ok raw =>
    Except.ok
      { translation := cleanTranslation raw.response
        modelName := model
        stats :=
          { total_duration := raw.total_duration
            load_duration := raw.load_duration
            prompt_eval_count := raw.prompt_eval_count
            eval_count := raw.eval_count } }

/-! ### The cache and the single-translate route -/
/-- The NodeCache instance, modelled as an association list from cache
key to stored result.  The 24-hour TTL never matters for the claims
below, so entries are modelled as live. -/
def Cache : Type := List (List Char × OllamaResult)

/-- Model of `cache.get`. -/
def cacheGet (cache : Cache) (key : List Char) : Option OllamaResult :=
  (cache.find? (fun p => decide (p.1 = key))).map (fun p => p.2)

/-- Model of `cache.set`: the new binding shadows any previous one. -/
def cacheSet (cache : Cache) (key : List Char) (v : OllamaResult) : Cache :=
  (key, v) :: cache

/-- Body of a `POST /api/translate` request (defaults already applied,
as in the destructuring on `setup.sh` lines 491–496). -/
structure TranslateRequest where
  text : List Char
  source_lang : List Char
  target_lang : List Char
  model : List Char
deriving DecidableEq, Repr

/-- Response of `POST /api/translate`. -/
inductive TranslateResponse where
  /-- A 400 rejection from input validation. -/
  | badRequest (error : List Char)
  /-- A 200 response `{...result, from_cache}`. -/
  | ok (result : OllamaResult) (from_cache : Bool)
  /-- A 500 response carrying the thrown error message. -/
  | serverError (error : List Char)
deriving DecidableEq, Repr

/-- Model of the `POST /api/translate` handler (`setup.sh` lines
489–536).  Besides the response and the updated cache it returns the
list of prompts sent to the model runtime, so that "the runtime is not
invoked" is expressible. -/
def handleTranslate (ollama : Ollama) (cache : Cache) (req : TranslateRequest) :
    TranslateResponse × Cache × List (List Char) :=
  if req.text = [] ∨ jsTrim req.text = [] then
    (TranslateResponse.badRequest (chars ("文本不能為空")), cache, [])
  else if req.text.length > 10000 then
    (TranslateResponse.badRequest (chars ("文本過長，請分段翻譯")), cache, [])
  else
    let key := cacheKey req.model req.source_lang req.target_lang req.text
    match cacheGet cache key with
    | some cached => (TranslateResponse.ok cached true, cache, [])
    | none =>
      let prompt := getTranslationPrompt req.text req.source_lang req.target_lang
      match translateWithOllama ollama req.text req.source_lang req.target_lang
          req.model with
      | Except.error e => (TranslateResponse.serverError e, cache, [prompt])
      | Except.ok result =>
        (TranslateResponse.ok result false, cacheSet cache key result, [prompt])

/-! ### The batch pipeline -/
/-- One element of the result array of `batchTranslate`: the spread
`{ index, ...result }` on success (where `result.success = true`) or the
failure object `{ index, success: false, error, translation: text }`. -/
structure BatchItem where
  index : Nat
  success : Bool
  translation : List Char
  modelName : Option (List Char)
  stats : Option TranslationStats
  error : Option (List Char)
deriving DecidableEq, Repr

/-- Item built from a cache hit or a fresh runtime success. -/
def BatchItem.ofResult (index : Nat) (r : OllamaResult) : BatchItem :=
  { index := index, success := true, translation := r.translation,
    modelName := some r.modelName, stats := some r.stats, error := none }

/-- Item built in the per-text `catch` branch: the original text is
returned in the `translation` field. -/
def BatchItem.ofFailure (index : Nat) (text e : List Char) : BatchItem :=
  { index := index, success := false, translation := text,
    modelName := none, stats := none, error := some e }

/-- Processing of one group of up to 5 texts.  The group's concurrent
`cache.get` calls all run before any of its `await`s resolve, so they
read the cache as it was when the group started (`snapshot`); the
`cache.set` calls of the group's misses are applied afterwards. -/
def processGroup (ollama : Ollama) (snapshot : Cache)
    (sourceLang targetLang model : List Char) :
    List (List Char) → Nat → Cache → List BatchItem × Cache × List (List Char)
  | [], _, cache => ([], cache, [])
  | text :: rest, idx, cache =>
    let key := cacheKey model sourceLang targetLang text
    match cacheGet snapshot key with
    | some cached =>
      let r :=
        processGroup ollama snapshot sourceLang targetLang model rest (idx + 1) cache
      (BatchItem.ofResult idx cached :: r.1, r.2.1, r.2.2)
    | none =>
      let prompt := getTranslationPrompt text sourceLang targetLang
      match translateWithOllama ollama text sourceLang targetLang model with
      | Except.ok result =>
        let r :=
          processGroup ollama snapshot sourceLang targetLang model rest (idx + 1)
            (cacheSet cache key result)
        (BatchItem.ofResult idx result :: r.1, r.2.1, prompt :: r.2.2)
      | Except.error e =>
        let r :=
          processGroup ollama snapshot sourceLang targetLang model rest (idx + 1) cache
        (BatchItem.ofFailure idx text e :: r.1, r.2.1, prompt :: r.2.2)

/-- The group loop `for (let i = 0; i < texts.length; i += batchSize)`
with `batchSize = 5`. -/
def batchGo (ollama : Ollama) (sourceLang targetLang model : List Char) :
    List (List Char) → Nat → Cache → List BatchItem × Cache × List (List Char)
  | [], _, cache => ([], cache, [])
  | head :: tail, i, cache =>
    let r :=
      processGroup ollama cache sourceLang targetLang model ((head :: tail).take 5)
        i cache
    let r' :=
      batchGo ollama sourceLang targetLang model ((head :: tail).drop 5) (i + 5) r.2.1
    (r.1 ++ r'.1, r'.2.1, r.2.2 ++ r'.2.2)
termination_by texts => texts.length
decreasing_by
  simp only [List.length_drop, List.length_cons]
  omega

/-- The comparator `(a, b) => a.index - b.index`, as an order. -/
def idxLE (a b : BatchItem) : Prop := a.index ≤ b.index

instance : DecidableRel idxLE := fun a b => Nat.decLe a.index b.index

instance : IsTotal BatchItem idxLE := ⟨fun a b => Nat.le_total a.index b.index⟩

instance : IsTrans BatchItem idxLE := ⟨fun _ _ _ => Nat.le_trans⟩

/-- The strict version of `idxLE`, used to exploit that all indices in a
batch result are distinct. -/
def idxLT (a b : BatchItem) : Prop := a.index < b.index

instance : IsAntisymm BatchItem idxLT :=
  ⟨fun _ _ h1 h2 => absurd h2 (Nat.lt_asymm h1)⟩

/-- The final reordering `results.sort((a, b) => a.index - b.index)`.
`Array.prototype.sort` with this comparator sorts by index; since all
indices are distinct the sorted sequence is unique, so any correct sort
models it — insertion sort is used here. -/
def sortByIndex (l : List BatchItem) : List BatchItem :=
  l.insertionSort idxLE

/-- Model of `batchTranslate` (`setup.sh` lines 418–459). -/
def batchTranslate (ollama : Ollama) (texts : List (List Char))
    (sourceLang targetLang model : List Char) (cache : Cache) :
    List BatchItem × Cache × List (List Char) :=
  let r := batchGo ollama sourceLang targetLang model texts 0 cache
  (sortByIndex r.1, r.2.1, r.2.2)

/-- Response of `POST /api/translate/batch`. -/
inductive BatchResponse where
  /-- A 400 rejection from input validation. -/
  | badRequest (error : List Char)
  /-- A 200 response `{success: true, results, total_texts, …}`. -/
  | ok (results : List BatchItem) (total_texts : Nat)
deriving DecidableEq, Repr

/-- Model of the `POST /api/translate/batch` handler (`setup.sh` lines
539–584). -/
def handleBatchTranslate (ollama : Ollama) (cache : Cache)
    (texts : List (List Char)) (sourceLang targetLang model : List Char) :
    BatchResponse × Cache × List (List Char) :=
  if texts = [] then
    (BatchResponse.badRequest (chars ("文本數組不能為空")), cache, [])
  else if texts.length > 50 then
    (BatchResponse.badRequest (chars ("單次最多翻譯50個文本")), cache, [])
  else
    let (results, cache', calls) :=
      batchTranslate ollama texts sourceLang targetLang model cache
    (BatchResponse.ok results texts.length, cache', calls)

/-! ## Web-page translation (`translateWebPage`)

The DOM is an external collaborator: a document is modelled as the list
of its text nodes' `textContent` strings, in document order.  Replacing
a node by the bilingual container of `createBilingualDisplay` is
modelled by the `PageNode.bilingual` constructor, which records exactly
the two lines of the block (original trimmed text, translation). -/
/-- State of a text node after `translateWebPage` has run. -/
inductive PageNode where
  /-- The node was left unmodified. -/
  | original (text : List Char)
  /-- The node was replaced by the two-line bilingual container built by
  `createBilingualDisplay` (`translation.js` lines 312–355). -/
  | bilingual (originalText translation : List Char)
deriving DecidableEq, Repr

/-- The candidate list `textsToTranslate` (`translation.js` lines
216–218): trimmed node texts that are nonempty and eligible. -/
def textsToTranslate (nodes : List (List Char)) : List (List Char) :=
  (nodes.map jsTrim).filter
    (fun t => decide (0 < t.length) && shouldTranslate t)

/-- The application loop of `translateWebPage` (`translation.js` lines
234–245): walk the nodes in document order with the counter
`appliedCount`, look up `batchResult.results[appliedCount]` for each
eligible node, replace the node and advance the counter only when that
result is successful. -/
def applyResults (results : List BatchItem) :
    List (List Char) → Nat → List PageNode
  | [], _ => []
  | node :: rest, appliedCount =>
    let original := jsTrim node
    if 0 < original.length ∧ shouldTranslate original then
      match results[appliedCount]? with
      | some r =>
        if r.success then
          PageNode.bilingual original r.translation ::
            applyResults results rest (appliedCount + 1)
        else
          PageNode.original node :: applyResults results rest appliedCount
      | none => PageNode.original node :: applyResults results rest appliedCount
    else
      PageNode.original node :: applyResults results rest appliedCount

/-- Model of the result-application phase of
`LocalAITranslator.translateWebPage` (`translation.js` lines 214–253),
parameterised by the batch results array. -/
def translateWebPageApply (nodes : List (List Char)) (results : List BatchItem) :
    List PageNode :=
  applyResults results nodes 0

/-- Test for a 400-class validation response of the single-translate
route. -/
def TranslateResponse.isValidationError : TranslateResponse → Bool
  | TranslateResponse.badRequest _ => true
  | _ => false

/-- First text of the collision pair: 40 copies of `a`. -/
def collisionText1 : List Char := List.replicate 40 'a'

/-- Second text of the collision pair: 41 copies of `a`. -/
def collisionText2 : List Char := List.replicate 41 'a'

/-- An oracle that translates the two collision texts differently, so
that returning the first text's translation for the second is
observable. -/
def collisionOracle : Ollama := fun p =>
  if p = getTranslationPrompt collisionText1 (chars ("auto")) (chars ("zh-tw")) then
    Except.ok ⟨chars ("第一"), 0, 0, 0, 0⟩
  else
    Except.ok ⟨chars ("第二"), 0, 0, 0, 0⟩

/-! ## Structure of the batch results (claim C5) -/
/-- Specification of the result items produced for `texts` when the
numbering starts at absolute index `base`: one item per text, carrying
its input index, and every failed item carrying the original text in
its `translation` field together with an error message. -/
def ItemsSpec (base : Nat) (texts : List (List Char))
    (items : List BatchItem) : Prop :=
  items.length = texts.length ∧
    ∀ k it, items[k]? = some it →
      it.index = base + k ∧
      (it.success = false → ∀ t, texts[k]? = some t →
        it.translation = t ∧ it.error ≠ none)

/-- Batch of the spec's example: `["a","b","c"]`. -/
def abcTexts : List (List Char) := [chars ("a"), chars ("b"), chars ("c")]

/-- An oracle that fails downstream exactly for item `"b"` and succeeds
for every other prompt. -/
def abcOracle : Ollama := fun p =>
  if p = getTranslationPrompt (chars ("b")) (chars ("auto")) (chars ("zh-tw")) then
    Except.error (chars ("boom"))
  else
    Except.ok ⟨chars ("好"), 0, 0, 0, 0⟩

/-! # Theorems -/

/-! ## The sentence split of `splitText`

`text.split(/([.!?。！？]+\s*)/)` searches repeatedly for the leftmost
match of one-or-more terminators followed by optional white space; the
pieces between matches and the (captured) matches themselves are all
returned, in order.  Adjacent matches and matches touching either end of
the string contribute empty pieces, exactly as in JavaScript. -/
theorem dropWhile_head_false (p : Char → Bool) :
    ∀ (l : List Char) (c : Char) (rest : List Char),
      l.dropWhile p = c :: rest → p c = false := by
  intro l
  induction l with
  | nil => intro c rest h; simp [List.dropWhile] at h
  | cons a t ih =>
      intro c rest h
      by_cases hp : p a = true
      · rw [List.dropWhile_cons, if_pos hp] at h
        exact ih c rest h
      · rw [List.dropWhile_cons, if_neg hp] at h
        cases h
        exact Bool.eq_false_iff.mpr hp

/-- When the remainder is nonempty, its recursion tail is strictly
shorter; hence the fuel in `sentenceSplit` never runs out. -/
theorem sentenceSplit_tail_lt (s : List Char) (c : Char) (rest : List Char)
    (hcr : s.dropWhile (fun c => !isTerminator c) = c :: rest) :
    (((s.dropWhile (fun c => !isTerminator c)).dropWhile
      isTerminator).dropWhile isJsSpace).length < s.length := by
  have hterm : isTerminator c = true := by
    have := dropWhile_head_false (fun c => !isTerminator c) s c rest hcr
    simpa using this
  have h1 : (s.dropWhile (fun c => !isTerminator c)).length ≤ s.length :=
    (List.dropWhile_sublist _).length_le
  have h2 : ((s.dropWhile (fun c => !isTerminator c)).dropWhile isTerminator).length
      ≤ rest.length := by
    rw [hcr, List.dropWhile_cons, if_pos hterm]
    exact (List.dropWhile_sublist _).length_le
  have h3 : (((s.dropWhile (fun c => !isTerminator c)).dropWhile
      isTerminator).dropWhile isJsSpace).length
      ≤ ((s.dropWhile (fun c => !isTerminator c)).dropWhile isTerminator).length :=
    (List.dropWhile_sublist _).length_le
  rw [hcr] at h1
  simp only [List.length_cons] at h1
  omega

/-- The fuel is irrelevant as soon as it exceeds the input length. -/
theorem sentenceSplitGo_eq_of_lt :
    ∀ (fuel : Nat) (s : List Char), s.length < fuel →
      sentenceSplitGo fuel s = sentenceSplitGo (s.length + 1) s := by
  intro fuel
  induction fuel using Nat.strong_induction_on with
  | _ fuel ih =>
    intro s hs
    match fuel, hs with
    | fuel + 1, hs =>
      rw [sentenceSplitGo, sentenceSplitGo]
      by_cases h : s.dropWhile (fun c => !isTerminator c) = []
      · rw [if_pos h, if_pos h]
      · rw [if_neg h, if_neg h]
        dsimp only
        obtain ⟨c, rest, hcr⟩ := List.exists_cons_of_ne_nil h
        have hlt := sentenceSplit_tail_lt s c rest hcr
        have e1 := ih fuel (Nat.lt_succ_self _)
          (((s.dropWhile (fun c => !isTerminator c)).dropWhile
            isTerminator).dropWhile isJsSpace) (by omega)
        have e2 := ih s.length (by omega)
          (((s.dropWhile (fun c => !isTerminator c)).dropWhile
            isTerminator).dropWhile isJsSpace) hlt
        rw [e1, e2]

/-- Unfolding equation for `sentenceSplit` in terms of itself. -/
theorem sentenceSplit_eq (s : List Char) :
    sentenceSplit s =
      if s.dropWhile (fun c => !isTerminator c) = [] then [s]
      else
        (s.takeWhile (fun c => !isTerminator c)) ::
          (((s.dropWhile (fun c => !isTerminator c)).takeWhile isTerminator) ++
            (((s.dropWhile (fun c => !isTerminator c)).dropWhile
              isTerminator).takeWhile isJsSpace)) ::
          sentenceSplit (((s.dropWhile (fun c => !isTerminator c)).dropWhile
            isTerminator).dropWhile isJsSpace) := by
  show sentenceSplitGo (s.length + 1) s = _
  rw [sentenceSplitGo]
  by_cases h : s.dropWhile (fun c => !isTerminator c) = []
  · rw [if_pos h, if_pos h]
  · rw [if_neg h, if_neg h]
    dsimp only
    obtain ⟨c, rest, hcr⟩ := List.exists_cons_of_ne_nil h
    have hlt := sentenceSplit_tail_lt s c rest hcr
    rw [sentenceSplitGo_eq_of_lt s.length _ hlt]
    rfl

/-- Concatenating the pieces of the sentence split reproduces the input:
JavaScript `split` with a capturing group keeps the separators. -/
theorem sentenceSplit_flatten (s : List Char) : (sentenceSplit s).flatten = s := by
  generalize hn : s.length = n
  induction n using Nat.strong_induction_on generalizing s with
  | _ n ih =>
    rw [sentenceSplit_eq]
    by_cases h : s.dropWhile (fun c => !isTerminator c) = []
    · simp [h]
    · simp only [if_neg h, List.flatten]
      obtain ⟨c, rest, hcr⟩ := List.exists_cons_of_ne_nil h
      have hlt := sentenceSplit_tail_lt s c rest hcr
      have ihtail := ih _ (hn ▸ hlt) _ rfl
      rw [ihtail]
      rw [List.append_assoc, List.takeWhile_append_dropWhile,
        List.takeWhile_append_dropWhile, List.takeWhile_append_dropWhile]

example : splitText (chars ("aaa")) 1 = [chars ("a"), chars ("aa")] := by decide

example : splitText (chars ("ab. cdefg")) 4 = [chars ("ab. "), chars ("cdefg")] := by
  decide

example : sentenceSplit (chars (".a")) = [[], chars ("."), chars ("a")] := by decide

example : sentenceSplit (chars ("a. b! c")) =
    [chars ("a"), chars (". "), chars ("b"), chars ("! "), chars ("c")] := by decide

/-! ## Properties of `splitText` -/
/-- Invariant of the accumulation loop: nothing is lost — the emitted
segments followed by the running segment always spell out the already
consumed sentence fragments. -/
theorem splitStep_foldl_flatten (maxLength : Nat) :
    ∀ (sentences : List (List Char)) (st : List (List Char) × List Char),
      (sentences.foldl (splitStep maxLength) st).1.flatten ++
        (sentences.foldl (splitStep maxLength) st).2 =
      st.1.flatten ++ st.2 ++ sentences.flatten := by
  intro sentences
  induction sentences with
  | nil => intro st; simp
  | cons s rest ih =>
      intro st
      rw [List.foldl_cons, ih]
      unfold splitStep
      by_cases h1 : st.2.length + s.length ≤ maxLength
      · rw [if_pos h1]
        simp
      · rw [if_neg h1]
        by_cases h2 : st.2.isEmpty
        · rw [if_pos h2]
          have : st.2 = [] := List.isEmpty_iff.mp h2
          simp [this, List.flatten_append]
        · rw [if_neg h2]
          simp [List.flatten_append]

/-- Concatenating all returned segments reproduces the input text. -/
theorem splitText_flatten (text : List Char) (maxLength : Nat) :
    (splitText text maxLength).flatten = text := by
  unfold splitText
  by_cases h : text.length ≤ maxLength
  · rw [if_pos h]; simp
  · rw [if_neg h]
    dsimp only
    have hinv := splitStep_foldl_flatten maxLength (sentenceSplit text) ([], [])
    simp only [List.flatten_nil, List.nil_append] at hinv
    rw [sentenceSplit_flatten] at hinv
    by_cases h2 : ((sentenceSplit text).foldl (splitStep maxLength) ([], [])).2.isEmpty
    · rw [if_pos h2]
      have : ((sentenceSplit text).foldl (splitStep maxLength) ([], [])).2 = [] :=
        List.isEmpty_iff.mp h2
      rw [this, List.append_nil] at hinv
      exact hinv
    · rw [if_neg h2]
      rw [List.flatten_append]
      simpa using hinv

/-- Invariant of the accumulation loop for the length bound: provided
every remaining sentence fragment fits in `maxLength` on its own, all
emitted segments and the running segment stay within `maxLength`. -/
theorem splitStep_foldl_le (maxLength : Nat) :
    ∀ (sentences : List (List Char)) (st : List (List Char) × List Char),
      (∀ s ∈ sentences, s.length ≤ maxLength) →
      (∀ seg ∈ st.1, seg.length ≤ maxLength) → st.2.length ≤ maxLength →
      (∀ seg ∈ (sentences.foldl (splitStep maxLength) st).1,
          seg.length ≤ maxLength) ∧
        (sentences.foldl (splitStep maxLength) st).2.length ≤ maxLength := by
  intro sentences
  induction sentences with
  | nil => intro st _ h1 h2; exact ⟨h1, h2⟩
  | cons s rest ih =>
      intro st hall h1 h2
      rw [List.foldl_cons]
      have hs : s.length ≤ maxLength := hall s (by simp)
      have hrest : ∀ x ∈ rest, x.length ≤ maxLength :=
        fun x hx => hall x (by simp [hx])
      unfold splitStep
      by_cases hfit : st.2.length + s.length ≤ maxLength
      · rw [if_pos hfit]
        refine ih _ hrest h1 ?_
        simpa using hfit
      · rw [if_neg hfit]
        by_cases hemp : st.2.isEmpty
        · rw [if_pos hemp]
          have hst2 : st.2 = [] := List.isEmpty_iff.mp hemp
          rw [hst2] at hfit
          simp only [List.length_nil, Nat.zero_add] at hfit
          omega
        · rw [if_neg hemp]
          refine ih _ hrest ?_ hs
          intro seg hseg
          rcases List.mem_append.mp hseg with hmem | hmem
          · exact h1 seg hmem
          · rw [List.mem_singleton.mp hmem]
            exact h2

/-- If every sentence fragment fits within `maxLength`, every returned
segment fits within `maxLength`. -/
theorem splitText_le (text : List Char) (maxLength : Nat)
    (h : ∀ s ∈ sentenceSplit text, s.length ≤ maxLength) :
    ∀ seg ∈ splitText text maxLength, seg.length ≤ maxLength := by
  unfold splitText
  by_cases htop : text.length ≤ maxLength
  · rw [if_pos htop]
    intro seg hseg
    rw [List.mem_singleton.mp hseg]
    exact htop
  · rw [if_neg htop]
    dsimp only
    have hinv := splitStep_foldl_le maxLength (sentenceSplit text) ([], [])
      h (by simp) (by simp)
    by_cases h2 : ((sentenceSplit text).foldl (splitStep maxLength) ([], [])).2.isEmpty
    · rw [if_pos h2]
      exact hinv.1
    · rw [if_neg h2]
      intro seg hseg
      rcases List.mem_append.mp hseg with hmem | hmem
      · exact hinv.1 seg hmem
      · rw [List.mem_singleton.mp hmem]
        exact hinv.2

/-- Invariant of the accumulation loop for segment nonemptiness: when
`maxLength ≥ 1`, no emitted segment is ever the empty string. -/
theorem splitStep_foldl_ne_nil (maxLength : Nat) (hmax : 1 ≤ maxLength) :
    ∀ (sentences : List (List Char)) (st : List (List Char) × List Char),
      (∀ seg ∈ st.1, seg ≠ []) →
      (∀ seg ∈ (sentences.foldl (splitStep maxLength) st).1, seg ≠ []) := by
  intro sentences
  induction sentences with
  | nil => intro st h1; exact h1
  | cons s rest ih =>
      intro st h1
      rw [List.foldl_cons]
      unfold splitStep
      by_cases hfit : st.2.length + s.length ≤ maxLength
      · rw [if_pos hfit]
        exact ih _ h1
      · rw [if_neg hfit]
        by_cases hemp : st.2.isEmpty
        · rw [if_pos hemp]
          refine ih _ ?_
          intro seg hseg
          rcases List.mem_append.mp hseg with hmem | hmem
          · exact h1 seg hmem
          · rw [List.mem_singleton.mp hmem]
            have hst2 : st.2 = [] := List.isEmpty_iff.mp hemp
            rw [hst2] at hfit
            simp only [List.length_nil, Nat.zero_add] at hfit
            have : (s.take maxLength).length = maxLength := by
              rw [List.length_take]
              omega
            intro hnil
            rw [hnil] at this
            simp at this
            omega
        · rw [if_neg hemp]
          refine ih _ ?_
          intro seg hseg
          rcases List.mem_append.mp hseg with hmem | hmem
          · exact h1 seg hmem
          · rw [List.mem_singleton.mp hmem]
            exact fun hnil => (by simp [hnil] at hemp)

/-- For a nonempty text and positive `maxLength`, `splitText` returns a
nonempty list of nonempty segments. -/
theorem splitText_ne_nil (text : List Char) (maxLength : Nat)
    (htext : text ≠ []) (hmax : 1 ≤ maxLength) :
    splitText text maxLength ≠ [] ∧ ∀ seg ∈ splitText text maxLength, seg ≠ [] := by
  constructor
  · intro hnil
    have := splitText_flatten text maxLength
    rw [hnil] at this
    exact htext this.symm
  · unfold splitText
    by_cases htop : text.length ≤ maxLength
    · rw [if_pos htop]
      intro seg hseg
      rw [List.mem_singleton.mp hseg]
      exact htext
    · rw [if_neg htop]
      dsimp only
      have hinv := splitStep_foldl_ne_nil maxLength hmax (sentenceSplit text)
        ([], []) (by simp)
      by_cases h2 : ((sentenceSplit text).foldl (splitStep maxLength) ([], [])).2.isEmpty
      · rw [if_pos h2]
        exact hinv
      · rw [if_neg h2]
        intro seg hseg
        rcases List.mem_append.mp hseg with hmem | hmem
        · exact hinv seg hmem
        · rw [List.mem_singleton.mp hmem]
          exact fun hnil => (by simp [hnil] at h2)

example : shouldTranslate (chars ("123")) = false := by decide

example : shouldTranslate (chars ("Hello world")) = true := by decide

example : shouldTranslate (chars ("你好你好你")) = false := by decide

example : base64Encode (utf8Encode (chars ("Hello"))) = chars ("SGVsbG8=") := by decide

example : cleanTranslation (chars ("翻譯結果： Hello")) = chars ("Hello") := by decide

example : cleanTranslation (chars ("Translation result: Hello")) =
    chars ("Translation result: Hello") := by decide

theorem cacheGet_cacheSet (cache : Cache) (key : List Char) (v : OllamaResult) :
    cacheGet (cacheSet cache key v) key = some v := by
  simp [cacheGet, cacheSet, List.find?]

/-! # The claims -/
/-- C1. The claim states that for every text and every `maxLength ≥ 1`
all returned segments have length at most `maxLength`, and that a
single over-long sentence is force-split into pieces each of length at
most `maxLength`.  This is false: `splitText "aaa" 1` peels one piece of
length 1 and then emits the remainder `"aa"` (length 2 > 1) untouched,
because the force-split branch runs only when the current segment is
empty and never re-splits the remainder. -/
theorem C1_counterexample :
    splitText (chars ("aaa")) 1 = [chars ("a"), chars ("aa")] ∧
      ¬ (∀ seg ∈ splitText (chars ("aaa")) 1, seg.length ≤ 1) := by
  constructor
  · decide
  · decide

/-- C1 (amended). Every segment returned by `splitText text maxLength`
has length at most `maxLength` provided every sentence fragment of the
terminator split fits in `maxLength` on its own.  (Without that proviso
a sentence longer than `maxLength` is force-split only when it starts a
fresh segment, and only its first `maxLength` characters are bounded —
the remainder can be emitted as a segment exceeding `maxLength`.) -/
theorem C1_amended (text : List Char) (maxLength : Nat)
    (h : ∀ s ∈ sentenceSplit text, s.length ≤ maxLength) :
    ∀ seg ∈ splitText text maxLength, seg.length ≤ maxLength :=
  splitText_le text maxLength h

/-- C1 (witness): instantiation of `C1_amended` for a concrete text
whose sentence fragments all fit in the bound. -/
theorem C1_amended_witness :
    (∀ s ∈ sentenceSplit (chars ("Hi. Yo. Zz.")), s.length ≤ 4) ∧
      ∀ seg ∈ splitText (chars ("Hi. Yo. Zz.")) 4, seg.length ≤ 4 :=
  ⟨by decide, C1_amended (chars ("Hi. Yo. Zz.")) 4 (by decide)⟩

/-- C2. For every text and every `maxLength ≥ 1`, concatenating the
segments of `splitText text maxLength` in order reproduces the text
exactly, and a text of length at most `maxLength` is returned as the
single segment equal to the input. -/
theorem C2_splitText_concat (text : List Char) (maxLength : Nat)
    (hmax : 1 ≤ maxLength) :
    (splitText text maxLength).flatten = text ∧
      (text.length ≤ maxLength → splitText text maxLength = [text]) := by
  refine ⟨splitText_flatten text maxLength, fun hle => ?_⟩
  unfold splitText
  rw [if_pos hle]

/-- C2 (witness): instantiation of `C2_splitText_concat` at a text that
is actually split into several segments. -/
theorem C2_splitText_concat_witness :
    (1 ≤ 4) ∧ ((splitText (chars ("ab. cdefg")) 4).flatten = chars ("ab. cdefg") ∧
      ((chars ("ab. cdefg")).length ≤ 4 →
        splitText (chars ("ab. cdefg")) 4 = [chars ("ab. cdefg")])) :=
  ⟨by decide, C2_splitText_concat (chars ("ab. cdefg")) 4 (by decide)⟩

/-- C9. `shouldTranslate` rejects `"123"`, `"   "` and `"!!??"`, every
text shorter than 3 characters, every text made up entirely of digits,
white space or non-word symbols, and every text whose CJK-character
count exceeds 80% of its length; it accepts `"Hello world"`. -/
theorem C9_shouldTranslate_spec :
    shouldTranslate (chars ("123")) = false ∧
      shouldTranslate (chars ("   ")) = false ∧
      shouldTranslate (chars ("!!??")) = false ∧
      (∀ t : List Char, t.length < 3 → shouldTranslate t = false) ∧
      (∀ t : List Char,
        t.all (fun c => isDigitJs c || isJsSpace c || !isWordJs c) = true →
          shouldTranslate t = false) ∧
      (∀ t : List Char, 5 * (t.filter isCjk).length > 4 * t.length →
          shouldTranslate t = false) ∧
      shouldTranslate (chars ("Hello world")) = true := by
  refine ⟨by decide, by decide, by decide, ?_, ?_, ?_, by decide⟩
  · intro t ht
    unfold shouldTranslate
    rw [if_pos ht]
  · intro t ht
    unfold shouldTranslate
    by_cases hlen : t.length < 3
    · rw [if_pos hlen]
    · rw [if_neg hlen]
      have hne : t.isEmpty = false := by
        rcases t with _ | _
        · simp at hlen
        · simp
      have : matchesSymbolOnly t = true := by
        unfold matchesSymbolOnly
        rw [hne, ht]
        rfl
      rw [if_pos this]
  · intro t ht
    unfold shouldTranslate
    by_cases hlen : t.length < 3
    · rw [if_pos hlen]
    · rw [if_neg hlen]
      by_cases hsym : matchesSymbolOnly t
      · rw [if_pos hsym]
      · rw [if_neg hsym]
        have : chineseRatioExceeds t = true := by
          unfold chineseRatioExceeds
          exact decide_eq_true ht
        rw [if_pos this]

/-- C9 (witness): instantiation of each universally quantified part of
`C9_shouldTranslate_spec` at a concrete input. -/
theorem C9_shouldTranslate_spec_witness :
    ((chars ("ab")).length < 3 ∧ shouldTranslate (chars ("ab")) = false) ∧
      ((chars ("999")).all
          (fun c => isDigitJs c || isJsSpace c || !isWordJs c) = true ∧
        shouldTranslate (chars ("999")) = false) ∧
      (5 * ((chars ("你好你好你")).filter isCjk).length >
          4 * (chars ("你好你好你")).length ∧
        shouldTranslate (chars ("你好你好你")) = false) :=
  ⟨⟨by decide, C9_shouldTranslate_spec.2.2.2.1 (chars ("ab")) (by decide)⟩,
    ⟨by decide, C9_shouldTranslate_spec.2.2.2.2.1 (chars ("999")) (by decide)⟩,
    ⟨by decide, C9_shouldTranslate_spec.2.2.2.2.2.1 (chars ("你好你好你")) (by decide)⟩⟩

/-- C10. For every nonempty text and every `maxLength ≥ 1`, `splitText`
returns a nonempty list of nonempty segments — even though the sentence
split itself can produce empty fragments (witnessed here by `".a"`,
whose split starts with an empty fragment). -/
theorem C10_splitText_nonempty (text : List Char) (maxLength : Nat)
    (htext : text ≠ []) (hmax : 1 ≤ maxLength) :
    splitText text maxLength ≠ [] ∧
      (∀ seg ∈ splitText text maxLength, seg ≠ []) ∧
      [] ∈ sentenceSplit (chars (".a")) := by
  refine ⟨(splitText_ne_nil text maxLength htext hmax).1,
    (splitText_ne_nil text maxLength htext hmax).2, by decide⟩

/-- C10 (witness): instantiation of `C10_splitText_nonempty` at a text
longer than the bound, with terminators adjacent to both ends. -/
theorem C10_splitText_nonempty_witness :
    (chars (".a. b.") ≠ [] ∧ 1 ≤ 3) ∧
      (splitText (chars (".a. b.")) 3 ≠ [] ∧
        (∀ seg ∈ splitText (chars (".a. b.")) 3, seg ≠ []) ∧
        [] ∈ sentenceSplit (chars (".a"))) :=
  ⟨⟨by decide, by decide⟩,
    C10_splitText_nonempty (chars (".a. b.")) 3 (by decide) (by decide)⟩

/-- C3. The claim states that batch results are applied positionally:
the i-th eligible node is replaced with the i-th result whenever that
result is successful.  The code instead indexes `batchResult.results`
with `appliedCount`, which advances only on success, so after a failed
result every later eligible node re-reads that same failed result and is
left unmodified.  Here the second batch result is successful, yet the
second eligible node keeps its original text. -/
theorem C3_code_bug :
    (BatchItem.ofResult 1
        { translation := chars ("你好世界"), modelName := chars ("m"),
          stats := ⟨0, 0, 0, 0⟩ }).success = true ∧
      translateWebPageApply
          [chars ("Hello world one"), chars ("Hello world two")]
          [BatchItem.ofFailure 0 (chars ("Hello world one")) (chars ("boom")),
            BatchItem.ofResult 1
              { translation := chars ("你好世界"), modelName := chars ("m"),
                stats := ⟨0, 0, 0, 0⟩ }] =
        [PageNode.original (chars ("Hello world one")),
          PageNode.original (chars ("Hello world two"))] := by
  constructor
  · rfl
  · decide

/-- C7. The claim states that label artifacts expressed in the request's
target language are stripped from the raw model output.  The cleaning
step strips only the fixed Chinese labels `翻譯結果`, `譯文`, `翻譯`,
whatever the target language: for `target_lang = en` the English label
`Translation result: ` survives into the returned (and cached)
translation. -/
theorem C7_counterexample :
    (handleTranslate
        (fun _ => Except.ok ⟨chars ("Translation result: Hello"), 0, 0, 0, 0⟩)
        [] ⟨chars ("Hi"), chars ("auto"), chars ("en"), chars ("m")⟩).1 =
      TranslateResponse.ok
        ⟨chars ("Translation result: Hello"), chars ("m"), ⟨0, 0, 0, 0⟩⟩ false ∧
      chars ("Translation result: Hello") ≠ chars ("Hello") := by
  constructor
  · decide
  · decide

/-- C7 (amended). The cleaning applied before caching and returning
strips the fixed Chinese labels `翻譯結果`, `譯文`, `翻譯` — each
followed by a full- or half-width colon and optional white space — and
trims the result, independently of the requested target language. -/
theorem isPrefixOf_append_self (l t : List Char) : l.isPrefixOf (l ++ t) = true := by
  induction l with
  | nil => simp [List.isPrefixOf]
  | cons c cs ih => simpa [List.isPrefixOf] using ih

/-- Stripping a label from the string made of exactly that label, a
colon, and a space-free remainder yields the remainder. -/
theorem stripLabel_strips (label s : List Char) (hws : s.dropWhile isJsSpace = s) :
    stripLabel label (label ++ ('：' :: s)) = s ∧
      stripLabel label (label ++ (':' :: s)) = s := by
  constructor
  · unfold stripLabel
    rw [if_pos (isPrefixOf_append_self label ('：' :: s))]
    have hdrop : (label ++ ('：' :: s)).drop label.length = '：' :: s := by
      simp
    rw [hdrop]
    simp [hws]
  · unfold stripLabel
    rw [if_pos (isPrefixOf_append_self label (':' :: s))]
    have hdrop : (label ++ (':' :: s)).drop label.length = ':' :: s := by
      simp
    rw [hdrop]
    simp [hws]

/-- If a label is not a prefix of `s` (in the Bool sense used by the
code), `stripLabel` leaves `s` alone. -/
theorem stripLabel_of_not (label s : List Char)
    (h : label.isPrefixOf s = false) : stripLabel label s = s := by
  unfold stripLabel
  rw [if_neg]
  simp [h]

/-- C7 (amended). The cleaning applied before caching and returning
strips the fixed Chinese labels `翻譯結果`, `譯文`, `翻譯` — each
followed by a full- or half-width colon and optional white space — and
trims the result, independently of the requested target language (the
labels are never localized). -/
theorem C7_amended (s : List Char)
    (hws : s.dropWhile isJsSpace = s)
    (h1 : stripLabel (chars ("譯文")) s = s)
    (h2 : stripLabel (chars ("翻譯")) s = s) :
    cleanTranslation (chars ("翻譯結果") ++ ('：' :: s)) = jsTrim s ∧
      cleanTranslation (chars ("譯文") ++ (':' :: s)) = jsTrim s ∧
      cleanTranslation (chars ("翻譯") ++ ('：' :: s)) = jsTrim s := by
  refine ⟨?_, ?_, ?_⟩
  · unfold cleanTranslation
    rw [(stripLabel_strips (chars ("翻譯結果")) s hws).1, h1, h2]
  · unfold cleanTranslation
    rw [stripLabel_of_not (chars ("翻譯結果")) _ (by simp [chars, List.isPrefixOf]),
      (stripLabel_strips (chars ("譯文")) s hws).2, h2]
  · unfold cleanTranslation
    rw [stripLabel_of_not (chars ("翻譯結果")) _ (by simp [chars, List.isPrefixOf]),
      stripLabel_of_not (chars ("譯文")) _ (by simp [chars, List.isPrefixOf]),
      (stripLabel_strips (chars ("翻譯")) s hws).1]

/-- C7 (witness): instantiation of `C7_amended` at a label-free
remainder. -/
theorem C7_amended_witness :
    ((chars ("Hello")).dropWhile isJsSpace = chars ("Hello") ∧
      stripLabel (chars ("譯文")) (chars ("Hello")) = chars ("Hello") ∧
      stripLabel (chars ("翻譯")) (chars ("Hello")) = chars ("Hello")) ∧
      (cleanTranslation (chars ("翻譯結果") ++ ('：' :: chars ("Hello"))) =
          jsTrim (chars ("Hello")) ∧
        cleanTranslation (chars ("譯文") ++ (':' :: chars ("Hello"))) =
          jsTrim (chars ("Hello")) ∧
        cleanTranslation (chars ("翻譯") ++ ('：' :: chars ("Hello"))) =
          jsTrim (chars ("Hello"))) :=
  ⟨⟨by decide, by decide, by decide⟩,
    C7_amended (chars ("Hello")) (by decide) (by decide) (by decide)⟩

/-- C8. Validation rejections: empty text and over-10000-character text
on the single route, empty arrays and over-50-element arrays on the
batch route; in each case the cache is unchanged and no prompt is ever
sent to the model runtime. -/
theorem C8_validation :
    (∀ (ollama : Ollama) (cache : Cache) (sl tl m : List Char),
        handleTranslate ollama cache ⟨[], sl, tl, m⟩ =
          (TranslateResponse.badRequest (chars ("文本不能為空")), cache, [])) ∧
      (∀ (ollama : Ollama) (cache : Cache) (req : TranslateRequest),
        req.text.length > 10000 →
          (handleTranslate ollama cache req).1.isValidationError = true ∧
            (handleTranslate ollama cache req).2.1 = cache ∧
            (handleTranslate ollama cache req).2.2 = []) ∧
      (∀ (ollama : Ollama) (cache : Cache) (sl tl m : List Char),
        handleBatchTranslate ollama cache [] sl tl m =
          (BatchResponse.badRequest (chars ("文本數組不能為空")), cache, [])) ∧
      (∀ (ollama : Ollama) (cache : Cache) (texts : List (List Char))
          (sl tl m : List Char),
        texts.length > 50 →
          handleBatchTranslate ollama cache texts sl tl m =
            (BatchResponse.badRequest (chars ("單次最多翻譯50個文本")), cache, [])) := by
  refine ⟨?_, ?_, ?_, ?_⟩
  · intro ollama cache sl tl m
    unfold handleTranslate
    rw [if_pos (Or.inl rfl)]
  · intro ollama cache req hlen
    unfold handleTranslate
    by_cases hempty : req.text = [] ∨ jsTrim req.text = []
    · rw [if_pos hempty]
      exact ⟨rfl, rfl, rfl⟩
    · rw [if_neg hempty, if_pos hlen]
      exact ⟨rfl, rfl, rfl⟩
  · intro ollama cache sl tl m
    unfold handleBatchTranslate
    rw [if_pos rfl]
  · intro ollama cache texts sl tl m hlen
    unfold handleBatchTranslate
    have hne : texts ≠ [] := by
      intro hnil
      rw [hnil] at hlen
      simp at hlen
    rw [if_neg hne, if_pos hlen]

/-- C8 (witness): instantiation of the two conditional parts of
`C8_validation`: a text of 10001 characters and a batch of 51 texts. -/
theorem C8_validation_witness :
    ((List.replicate 10001 'a').length > 10000 ∧
      (handleTranslate (fun _ => Except.error []) []
          ⟨List.replicate 10001 'a', chars ("auto"), chars ("zh-tw"),
            chars ("m")⟩).1.isValidationError = true ∧
      (handleTranslate (fun _ => Except.error []) []
          ⟨List.replicate 10001 'a', chars ("auto"), chars ("zh-tw"),
            chars ("m")⟩).2.1 = [] ∧
      (handleTranslate (fun _ => Except.error []) []
          ⟨List.replicate 10001 'a', chars ("auto"), chars ("zh-tw"),
            chars ("m")⟩).2.2 = []) ∧
      ((List.replicate 51 (chars ("a"))).length > 50 ∧
        handleBatchTranslate (fun _ => Except.error []) []
            (List.replicate 51 (chars ("a"))) (chars ("auto")) (chars ("zh-tw"))
            (chars ("m")) =
          (BatchResponse.badRequest (chars ("單次最多翻譯50個文本")), [], [])) := by
  have h1 : (List.replicate 10001 'a').length > 10000 := by
    rw [List.length_replicate]
    omega
  have h2 : (List.replicate 51 (chars ("a"))).length > 50 := by
    rw [List.length_replicate]
    omega
  exact ⟨⟨h1, (C8_validation.2.1 _ _ _ h1).1, (C8_validation.2.1 _ _ _ h1).2.1,
    (C8_validation.2.1 _ _ _ h1).2.2⟩,
    ⟨h2, C8_validation.2.2.2 _ _ _ _ _ _ h2⟩⟩

/-- C4. Cache discipline of the single-translate route, for any request
that passes validation: on a hit for the request's cache key, the stored
result is returned tagged `from_cache = true`, the cache is unchanged
and the model runtime is never invoked; on a miss, the prompt is sent to
the runtime, and when the runtime answers, the cleaned result is stored
under the key and returned tagged `from_cache = false`.  (When the
runtime fails on a miss, the error is surfaced and nothing is cached —
the spec documents that failure path separately.) -/
theorem C4_translate_cache (ollama : Ollama) (cache : Cache)
    (req : TranslateRequest)
    (hvalid : ¬(req.text = [] ∨ jsTrim req.text = []))
    (hlen : ¬req.text.length > 10000) :
    (∀ r, cacheGet cache
          (cacheKey req.model req.source_lang req.target_lang req.text) = some r →
        handleTranslate ollama cache req = (TranslateResponse.ok r true, cache, [])) ∧
      (cacheGet cache
          (cacheKey req.model req.source_lang req.target_lang req.text) = none →
        (handleTranslate ollama cache req).2.2 =
            [getTranslationPrompt req.text req.source_lang req.target_lang] ∧
          ∀ result,
            translateWithOllama ollama req.text req.source_lang req.target_lang
                req.model = Except.ok result →
              handleTranslate ollama cache req =
                (TranslateResponse.ok result false,
                  cacheSet cache
                    (cacheKey req.model req.source_lang req.target_lang req.text)
                    result,
                  [getTranslationPrompt req.text req.source_lang req.target_lang])) := by
  constructor
  · intro r hr
    unfold handleTranslate
    rw [if_neg hvalid, if_neg hlen]
    dsimp only
    rw [hr]
  · intro hmiss
    unfold handleTranslate
    rw [if_neg hvalid, if_neg hlen]
    dsimp only
    rw [hmiss]
    constructor
    · rcases hcall : translateWithOllama ollama req.text req.source_lang
        req.target_lang req.model with e | result
      · rfl
      · rfl
    · intro result hok
      rw [hok]

/-- C4 (witness): instantiation of `C4_translate_cache`, hit branch on a
pre-populated cache for (m, auto, zh-tw, "Hello") and miss branch on the
empty cache. -/
theorem C4_translate_cache_witness :
    (¬((chars ("Hello")) = [] ∨ jsTrim (chars ("Hello")) = []) ∧
      ¬(chars ("Hello")).length > 10000) ∧
      handleTranslate (fun _ => Except.error [])
          [(cacheKey (chars ("m")) (chars ("auto")) (chars ("zh-tw"))
              (chars ("Hello")),
            ⟨chars ("哈囉"), chars ("m"), ⟨1, 2, 3, 4⟩⟩)]
          ⟨chars ("Hello"), chars ("auto"), chars ("zh-tw"), chars ("m")⟩ =
        (TranslateResponse.ok ⟨chars ("哈囉"), chars ("m"), ⟨1, 2, 3, 4⟩⟩ true,
          [(cacheKey (chars ("m")) (chars ("auto")) (chars ("zh-tw"))
              (chars ("Hello")),
            ⟨chars ("哈囉"), chars ("m"), ⟨1, 2, 3, 4⟩⟩)],
          []) ∧
      (handleTranslate
          (fun _ => Except.ok ⟨chars ("嗨"), 0, 0, 0, 0⟩) []
          ⟨chars ("Hello"), chars ("auto"), chars ("zh-tw"), chars ("m")⟩).2.2 =
        [getTranslationPrompt (chars ("Hello")) (chars ("auto"))
          (chars ("zh-tw"))] :=
  ⟨⟨by decide, by decide⟩,
    (C4_translate_cache (fun _ => Except.error []) _ _ (by decide) (by decide)).1
      ⟨chars ("哈囉"), chars ("m"), ⟨1, 2, 3, 4⟩⟩ (by decide),
    ((C4_translate_cache (fun _ => Except.ok ⟨chars ("嗨"), 0, 0, 0, 0⟩) [] _
      (by decide) (by decide)).2 (by decide)).1⟩

/-- C6. Two distinct texts (40 and 41 copies of `a`) share the same
cache key, because only the first 50 base64 characters of the text enter
the key; consequently, translating the second text right after the first
has been cached returns the first text's translation, tagged as a cache
hit, although the runtime would have answered differently for the
second text. -/
theorem C6_cacheKey_collision :
    collisionText1 ≠ collisionText2 ∧
      cacheKey (chars ("m")) (chars ("auto")) (chars ("zh-tw")) collisionText1 =
        cacheKey (chars ("m")) (chars ("auto")) (chars ("zh-tw")) collisionText2 ∧
      (handleTranslate collisionOracle []
          ⟨collisionText1, chars ("auto"), chars ("zh-tw"), chars ("m")⟩).1 =
        TranslateResponse.ok ⟨chars ("第一"), chars ("m"), ⟨0, 0, 0, 0⟩⟩ false ∧
      (handleTranslate collisionOracle
          (handleTranslate collisionOracle []
            ⟨collisionText1, chars ("auto"), chars ("zh-tw"), chars ("m")⟩).2.1
          ⟨collisionText2, chars ("auto"), chars ("zh-tw"), chars ("m")⟩).1 =
        TranslateResponse.ok ⟨chars ("第一"), chars ("m"), ⟨0, 0, 0, 0⟩⟩ true ∧
      cleanTranslation (chars ("第二")) ≠ chars ("第一") := by
  set_option maxRecDepth 10000 in
  refine ⟨by decide, by decide, by decide, by decide, by decide⟩

theorem ItemsSpec.nil (base : Nat) : ItemsSpec base [] [] := by
  constructor
  · rfl
  · intro k it h
    simp at h

theorem ItemsSpec.cons (base : Nat) (t : List Char) (texts : List (List Char))
    (it : BatchItem) (items : List BatchItem)
    (hidx : it.index = base)
    (hfail : it.success = false → it.translation = t ∧ it.error ≠ none)
    (h : ItemsSpec (base + 1) texts items) :
    ItemsSpec base (t :: texts) (it :: items) := by
  constructor
  · simp [h.1]
  · intro k x hx
    cases k with
    | zero =>
      simp only [List.getElem?_cons_zero, Option.some.injEq] at hx
      subst hx
      refine ⟨hidx, fun hf t' ht' => ?_⟩
      simp only [List.getElem?_cons_zero, Option.some.injEq] at ht'
      subst ht'
      exact hfail hf
    | succ k =>
      simp only [List.getElem?_cons_succ] at hx
      have := h.2 k x hx
      refine ⟨by rw [this.1]; omega, ?_⟩
      intro hf t' ht'
      simp only [List.getElem?_cons_succ] at ht'
      exact this.2 hf t' ht'

theorem ItemsSpec.append (base : Nat) (ts1 ts2 : List (List Char))
    (l1 l2 : List BatchItem)
    (h1 : ItemsSpec base ts1 l1) (h2 : ItemsSpec (base + ts1.length) ts2 l2) :
    ItemsSpec base (ts1 ++ ts2) (l1 ++ l2) := by
  constructor
  · simp [h1.1, h2.1]
  · intro k it hit
    have hts1 : l1.length = ts1.length := h1.1
    rw [List.getElem?_append] at hit
    by_cases hk : k < l1.length
    · rw [if_pos hk] at hit
      have := h1.2 k it hit
      refine ⟨this.1, fun hf t ht => ?_⟩
      rw [List.getElem?_append, if_pos (by omega)] at ht
      exact this.2 hf t ht
    · rw [if_neg hk] at hit
      have hsp := h2.2 (k - l1.length) it hit
      refine ⟨by rw [hsp.1]; omega, fun hf t ht => ?_⟩
      rw [List.getElem?_append, if_neg (by omega)] at ht
      rw [← hts1] at ht
      exact hsp.2 hf t ht

/-- The items produced by one group satisfy `ItemsSpec`: hits and fresh
successes are success items, runtime failures carry the original text
and an error. -/
theorem processGroup_spec (ollama : Ollama) (snapshot : Cache)
    (sourceLang targetLang model : List Char) :
    ∀ (chunk : List (List Char)) (idx : Nat) (cache : Cache),
      ItemsSpec idx chunk
        (processGroup ollama snapshot sourceLang targetLang model
          chunk idx cache).1 := by
  intro chunk
  induction chunk with
  | nil =>
    intro idx cache
    exact ItemsSpec.nil idx
  | cons text rest ih =>
    intro idx cache
    rw [processGroup]
    dsimp only
    rcases hget : cacheGet snapshot (cacheKey model sourceLang targetLang text)
      with _ | cached
    · rcases hcall : translateWithOllama ollama text sourceLang targetLang model
        with e | result
      · exact ItemsSpec.cons idx text rest _ _ rfl
          (fun _ => ⟨rfl, by simp [BatchItem.ofFailure]⟩) (ih (idx + 1) cache)
      · exact ItemsSpec.cons idx text rest _ _ rfl
          (fun hf => by simp [BatchItem.ofResult] at hf) (ih (idx + 1) _)
    · exact ItemsSpec.cons idx text rest _ _ rfl
        (fun hf => by simp [BatchItem.ofResult] at hf) (ih (idx + 1) cache)

/-- Unfolding of `batchGo` at the empty list. -/
theorem batchGo_nil (ollama : Ollama) (sourceLang targetLang model : List Char)
    (i : Nat) (cache : Cache) :
    batchGo ollama sourceLang targetLang model [] i cache = ([], cache, []) := by
  rw [batchGo.eq_def]

/-- The items produced by the whole group loop satisfy `ItemsSpec`. -/
theorem batchGo_spec (ollama : Ollama) (sourceLang targetLang model : List Char) :
    ∀ (texts : List (List Char)) (i : Nat) (cache : Cache),
      ItemsSpec i texts
        (batchGo ollama sourceLang targetLang model texts i cache).1 := by
  intro texts
  generalize hn : texts.length = n
  induction n using Nat.strong_induction_on generalizing texts with
  | _ n ih =>
    intro i cache
    match texts, hn with
    | [], hn =>
      rw [batchGo_nil]
      exact ItemsSpec.nil i
    | head :: tail, hn =>
      rw [batchGo]
      dsimp only
      have htd : (head :: tail).take 5 ++ (head :: tail).drop 5 = head :: tail :=
        List.take_append_drop 5 (head :: tail)
      have hrest : ItemsSpec (i + ((head :: tail).take 5).length)
          ((head :: tail).drop 5)
          (batchGo ollama sourceLang targetLang model ((head :: tail).drop 5)
            (i + 5)
            (processGroup ollama cache sourceLang targetLang model
              ((head :: tail).take 5) i cache).2.1).1 := by
        by_cases hlen : (head :: tail).length ≤ 5
        · have hdrop : (head :: tail).drop 5 = [] := List.drop_eq_nil_of_le hlen
          rw [hdrop, batchGo_nil]
          exact ItemsSpec.nil _
        · have htake : ((head :: tail).take 5).length = 5 := by
            rw [List.length_take]
            omega
          rw [htake]
          have hlt : ((head :: tail).drop 5).length < n := by
            rw [List.length_drop]
            simp only [List.length_cons] at hn ⊢
            omega
          exact ih _ hlt _ rfl (i + 5)
            (processGroup ollama cache sourceLang targetLang model
              ((head :: tail).take 5) i cache).2.1
      have happ := ItemsSpec.append i ((head :: tail).take 5)
        ((head :: tail).drop 5)
        (processGroup ollama cache sourceLang targetLang model
          ((head :: tail).take 5) i cache).1
        (batchGo ollama sourceLang targetLang model ((head :: tail).drop 5)
          (i + 5)
          (processGroup ollama cache sourceLang targetLang model
            ((head :: tail).take 5) i cache).2.1).1
        (processGroup_spec ollama cache sourceLang targetLang model
          ((head :: tail).take 5) i cache) hrest
      rw [htd] at happ
      exact happ

/-- The pre-sort result list is already strictly ordered by index
(indices are assigned in input order). -/
theorem batchGo_pairwise (ollama : Ollama)
    (sourceLang targetLang model : List Char) (texts : List (List Char))
    (i : Nat) (cache : Cache) :
    List.Pairwise idxLT
      (batchGo ollama sourceLang targetLang model texts i cache).1 := by
  have hspec := batchGo_spec ollama sourceLang targetLang model texts i cache
  rw [List.pairwise_iff_getElem]
  intro a b ha hb hab
  have hga := List.getElem?_eq_getElem ha
  have hgb := List.getElem?_eq_getElem hb
  have h1 := (hspec.2 a _ hga).1
  have h2 := (hspec.2 b _ hgb).1
  unfold idxLT
  rw [h1, h2]
  omega

/-- Sorting any permutation of a strictly index-ordered list by `idxLE`
returns that list: the comparator determines the output uniquely because
all indices are distinct. -/
theorem sortByIndex_eq_of_perm (l l' : List BatchItem)
    (hp : l'.Perm l) (hs : List.Pairwise idxLT l) : sortByIndex l' = l := by
  have hperm : (sortByIndex l').Perm l :=
    (List.perm_insertionSort idxLE l').trans hp
  have hsortedLE : List.Sorted idxLE (sortByIndex l') :=
    List.sorted_insertionSort idxLE l'
  have hndl : (l.map (fun it => it.index)).Nodup := by
    apply List.pairwise_map.mpr
    exact hs.imp (fun h => Nat.ne_of_lt h)
  have hnds : ((sortByIndex l').map (fun it => it.index)).Nodup :=
    (List.Perm.nodup_iff (hperm.map (fun it => it.index))).mpr hndl
  have hne : List.Pairwise (fun a b : BatchItem => a.index ≠ b.index)
      (sortByIndex l') := List.pairwise_map.mp hnds
  have hsortedLT : List.Sorted idxLT (sortByIndex l') := by
    have := List.Pairwise.and hsortedLE hne
    exact this.imp (fun h => Nat.lt_of_le_of_ne h.1 h.2)
  exact List.eq_of_perm_of_sorted hperm hsortedLT hs

/-- C5. For a batch of 1 to 50 texts, `batchTranslate` produces exactly
one result per input text; whatever order the per-item promises settle
in (any permutation of the computed items), the final sort returns them
ordered by original input index; the item at position `k` carries index
`k`, and when it is a failure its `translation` field carries the
original input text along with an error message — sibling items are
unaffected. -/
theorem C5_batchTranslate (ollama : Ollama) (texts : List (List Char))
    (sourceLang targetLang model : List Char) (cache : Cache)
    (completed : List BatchItem)
    (hlen1 : 1 ≤ texts.length) (hlen50 : texts.length ≤ 50)
    (hcompleted : completed.Perm
      (batchGo ollama sourceLang targetLang model texts 0 cache).1) :
    sortByIndex completed =
        (batchTranslate ollama texts sourceLang targetLang model cache).1 ∧
      (batchTranslate ollama texts sourceLang targetLang model cache).1.length
          = texts.length ∧
      ∀ (k : Nat) (it : BatchItem),
        ((batchTranslate ollama texts sourceLang targetLang model cache).1)[k]?
            = some it →
          it.index = k ∧
          (it.success = false → ∀ t, texts[k]? = some t →
            it.translation = t ∧ it.error ≠ none) := by
  have hspec := batchGo_spec ollama sourceLang targetLang model texts 0 cache
  have hpw := batchGo_pairwise ollama sourceLang targetLang model texts 0 cache
  have hcanon : (batchTranslate ollama texts sourceLang targetLang model cache).1 =
      (batchGo ollama sourceLang targetLang model texts 0 cache).1 := by
    show sortByIndex _ = _
    exact sortByIndex_eq_of_perm _ _ (List.Perm.refl _) hpw
  refine ⟨?_, ?_, ?_⟩
  · rw [hcanon]
    exact sortByIndex_eq_of_perm _ _ hcompleted hpw
  · rw [hcanon]
    exact hspec.1
  · intro k it hit
    rw [hcanon] at hit
    have hsp := hspec.2 k it hit
    exact ⟨by rw [hsp.1]; omega, hsp.2⟩

/-- C5 (witness): instantiation of `C5_batchTranslate` at the batch
`["a","b","c"]` with item `"b"` failing downstream, items settling in
computation order. -/
theorem C5_batchTranslate_witness :
    (1 ≤ abcTexts.length ∧ abcTexts.length ≤ 50) ∧
      (sortByIndex (batchGo abcOracle (chars ("auto")) (chars ("zh-tw"))
            (chars ("m")) abcTexts 0 []).1 =
          (batchTranslate abcOracle abcTexts (chars ("auto")) (chars ("zh-tw"))
            (chars ("m")) []).1 ∧
        (batchTranslate abcOracle abcTexts (chars ("auto")) (chars ("zh-tw"))
            (chars ("m")) []).1.length = abcTexts.length ∧
        ∀ (k : Nat) (it : BatchItem),
          ((batchTranslate abcOracle abcTexts (chars ("auto")) (chars ("zh-tw"))
              (chars ("m")) []).1)[k]? = some it →
            it.index = k ∧
            (it.success = false → ∀ t, abcTexts[k]? = some t →
              it.translation = t ∧ it.error ≠ none)) :=
  ⟨⟨by decide, by decide⟩,
    C5_batchTranslate abcOracle abcTexts (chars ("auto")) (chars ("zh-tw"))
      (chars ("m")) [] _ (by decide) (by decide) (List.Perm.refl _)⟩
